import Mathlib

/-!
Verification of the drawtogether server core: a shallow embedding of the
command channel (src/socket.ts), the event dispatcher (EventClass), and the
drawing-protocol handler (`handleData`/`broadcast`/`saveCanvas`).

Wire frames are `List Char`.  The JSON layer below models `JSON.stringify`
and `JSON.parse` restricted to the value grammar the server exchanges:
null, booleans, integer numbers, strings (with the standard escapes),
arrays and objects, with no insignificant whitespace, which is exactly the
output format of `JSON.stringify`.
-/

namespace DrawTogether

/-! ## Characters and digits -/

def isDigitCh (c : Char) : Bool := decide (48 ≤ c.toNat ∧ c.toNat ≤ 57)

/-- The decimal digit character for `n % 10`. -/
def digitCh (n : Nat) : Char :=
  match n with
  | 0 => '0' | 1 => '1' | 2 => '2' | 3 => '3' | 4 => '4'
  | 5 => '5' | 6 => '6' | 7 => '7' | 8 => '8' | _ => '9'

/-- Lowercase hexadecimal digit character, as emitted by `JSON.stringify`
in `\u00XX` escapes. -/
def hexCh (n : Nat) : Char :=
  if n < 10 then digitCh n
  else if n = 10 then 'a' else if n = 11 then 'b' else if n = 12 then 'c'
  else if n = 13 then 'd' else if n = 14 then 'e' else 'f'

/-- Numeric value of a hexadecimal digit (`JSON.parse` accepts both cases). -/
def hexNum (c : Char) : Option Nat :=
  if 48 ≤ c.toNat ∧ c.toNat ≤ 57 then some (c.toNat - 48)
  else if 97 ≤ c.toNat ∧ c.toNat ≤ 102 then some (c.toNat - 87)
  else if 65 ≤ c.toNat ∧ c.toNat ≤ 70 then some (c.toNat - 55)
  else none

/-! ## Decimal numerals

`JSON.stringify` prints an integer-valued number as an optional minus sign
followed by decimal digits, which is what `natDigits`/`intChars` produce. -/

def natDigits (n : Nat) : List Char :=
  if _h : n < 10 then [digitCh n]
  else natDigits (n / 10) ++ [digitCh (n % 10)]
termination_by n
decreasing_by exact Nat.div_lt_self (by omega) (by omega)

def intChars (i : Int) : List Char :=
  if i < 0 then '-' :: natDigits i.natAbs else natDigits i.toNat

/-- Greedily split a leading run of decimal digits from the input. -/
def digitSpan : List Char → List Char × List Char
  | [] => ([], [])
  | c :: tl =>
    if isDigitCh c then
      let p := digitSpan tl
      (c :: p.1, p.2)
    else ([], c :: tl)

def digitsVal (l : List Char) : Nat :=
  l.foldl (fun a c => a * 10 + (c.toNat - 48)) 0

/-- Read an (optionally negated) decimal integer from the front of the input. -/
def readInt : List Char → Option (Int × List Char)
  | [] => none
  | c :: tl =>
    if c = '-' then
      let p := digitSpan tl
      if p.1 = [] then none else some (-(digitsVal p.1 : Int), p.2)
    else
      let p := digitSpan (c :: tl)
      if p.1 = [] then none else some ((digitsVal p.1 : Int), p.2)

/-- Whether the input begins with a decimal digit (such an input could extend
a numeral, so numeral lemmas exclude it as the remainder). -/
def digitLed : List Char → Bool
  | [] => false
  | c :: _ => isDigitCh c

/-! ## String escaping

`escapeCh` follows the escape table of `JSON.stringify`: quote and backslash
get two-character escapes, the named control characters get `\b \t \n \f \r`,
every other control character becomes `\u00XX` with lowercase hex digits, and
all remaining characters pass through verbatim. -/

def escapeCh (c : Char) : List Char :=
  if c = '"' then ['\\', '"']
  else if c = '\\' then ['\\', '\\']
  else if c = '\x08' then ['\\', 'b']
  else if c = '\x09' then ['\\', 't']
  else if c = '\x0a' then ['\\', 'n']
  else if c = '\x0c' then ['\\', 'f']
  else if c = '\x0d' then ['\\', 'r']
  else if c.toNat < 32 then
    ['\\', 'u', '0', '0', hexCh (c.toNat / 16), hexCh (c.toNat % 16)]
  else [c]

def escapeChars : List Char → List Char
  | [] => []
  | c :: tl => escapeCh c ++ escapeChars tl

/-- The character named by a single-letter escape, per `JSON.parse`. -/
def namedEscape (c : Char) : Option Char :=
  if c = '"' then some '"'
  else if c = '\\' then some '\\'
  else if c = '/' then some '/'
  else if c = 'b' then some '\x08'
  else if c = 'f' then some '\x0c'
  else if c = 'n' then some '\x0a'
  else if c = 'r' then some '\x0d'
  else if c = 't' then some '\x09'
  else none

/-- Read a string body (everything after the opening quote) up to and
including the closing quote, undoing escapes; bare control characters are
rejected, as in `JSON.parse`. -/
def readStr : List Char → Option (List Char × List Char)
  | [] => none
  | c :: rest =>
    if c = '"' then some ([], rest)
    else if c = '\\' then
      match rest with
      | [] => none
      | e :: rest2 =>
        if e = 'u' then
          match rest2 with
          | h1 :: h2 :: h3 :: h4 :: rest3 =>
            match hexNum h1, hexNum h2, hexNum h3, hexNum h4 with
            | some a, some b, some x, some d =>
              (readStr rest3).map
                (fun p => (Char.ofNat (((a * 16 + b) * 16 + x) * 16 + d) :: p.1, p.2))
            | _, _, _, _ => none
          | _ => none
        else
          match namedEscape e with
          | some u => (readStr rest2).map (fun p => (u :: p.1, p.2))
          | none => none
    else if c.toNat < 32 then none
    else (readStr rest).map (fun p => (c :: p.1, p.2))

/-! ## JSON values

`JVal` is the value universe of the wire protocol; arrays and objects are
separate mutual inductives so that mutual structural recursion (and mutual
induction in the round-trip proof) stays primitive. -/

mutual

inductive JVal where
  | jnull : JVal
  | jbool : Bool → JVal
  | jnum : Int → JVal
  | jstr : List Char → JVal
  | jarr : JArr → JVal
  | jobj : JObj → JVal
deriving DecidableEq

inductive JArr where
  | anil : JArr
  | acons : JVal → JArr → JArr
deriving DecidableEq

inductive JObj where
  | onil : JObj
  | ocons : List Char → JVal → JObj → JObj
deriving DecidableEq

end

/-! ### Serialization, as produced by `JSON.stringify`: no whitespace,
object keys in insertion order, strings escaped per `escapeCh`. -/

mutual

def encVal : JVal → List Char
  | .jnull => ['n', 'u', 'l', 'l']
  | .jbool true => ['t', 'r', 'u', 'e']
  | .jbool false => ['f', 'a', 'l', 's', 'e']
  | .jnum i => intChars i
  | .jstr s => '"' :: (escapeChars s ++ ['"'])
  | .jarr items => '[' :: (encArr items ++ [']'])
  | .jobj fields => '{' :: (encObj fields ++ ['}'])

def encArr : JArr → List Char
  | .anil => []
  | .acons v tl => encVal v ++ encArrTail tl

def encArrTail : JArr → List Char
  | .anil => []
  | .acons v tl => ',' :: (encVal v ++ encArrTail tl)

def encField (k : List Char) (v : JVal) : List Char :=
  '"' :: (escapeChars k ++ ('"' :: ':' :: encVal v))

def encObj : JObj → List Char
  | .onil => []
  | .ocons k v tl => encField k v ++ encObjTail tl

def encObjTail : JObj → List Char
  | .onil => []
  | .ocons k v tl => ',' :: (encField k v ++ encObjTail tl)

end

/-! ### Parsing, as done by `JSON.parse` on whitespace-free input.
The parser is total via a fuel argument; `jsonParse` below supplies ample
fuel computed from the input length, so fuel exhaustion is unreachable on
inputs the server actually produces (proved by the round-trip theorem). -/

mutual

def parseVal : Nat → List Char → Option (JVal × List Char)
  | 0, _ => none
  | _ + 1, [] => none
  | fuel + 1, c :: rest =>
    if c = '"' then (readStr rest).map (fun p => (.jstr p.1, p.2))
    else if c = '[' then
      match rest with
      | [] => none
      | d :: r2 =>
        if d = ']' then some (.jarr .anil, r2)
        else
          (parseVal fuel (d :: r2)).bind fun p =>
            (parseArrTail fuel p.2).map fun q => (.jarr (.acons p.1 q.1), q.2)
    else if c = '{' then
      match rest with
      | [] => none
      | d :: r2 =>
        if d = '}' then some (.jobj .onil, r2)
        else
          (parseField fuel (d :: r2)).bind fun p =>
            (parseObjTail fuel p.2).map fun q => (.jobj (.ocons p.1.1 p.1.2 q.1), q.2)
    else if c = 'n' then
      match rest with
      | 'u' :: 'l' :: 'l' :: r => some (.jnull, r)
      | _ => none
    else if c = 't' then
      match rest with
      | 'r' :: 'u' :: 'e' :: r => some (.jbool true, r)
      | _ => none
    else if c = 'f' then
      match rest with
      | 'a' :: 'l' :: 's' :: 'e' :: r => some (.jbool false, r)
      | _ => none
    else if c = '-' ∨ isDigitCh c then
      (readInt (c :: rest)).map (fun p => (.jnum p.1, p.2))
    else none

def parseArrTail : Nat → List Char → Option (JArr × List Char)
  | 0, _ => none
  | _ + 1, [] => none
  | fuel + 1, c :: rest =>
    if c = ']' then some (.anil, rest)
    else if c = ',' then
      (parseVal fuel rest).bind fun p =>
        (parseArrTail fuel p.2).map fun q => (.acons p.1 q.1, q.2)
    else none

def parseField : Nat → List Char → Option ((List Char × JVal) × List Char)
  | 0, _ => none
  | _ + 1, [] => none
  | fuel + 1, c :: rest =>
    if c = '"' then
      (readStr rest).bind fun p =>
        match p.2 with
        | ':' :: r3 => (parseVal fuel r3).map (fun q => ((p.1, q.1), q.2))
        | _ => none
    else none

def parseObjTail : Nat → List Char → Option (JObj × List Char)
  | 0, _ => none
  | _ + 1, [] => none
  | fuel + 1, c :: rest =>
    if c = '}' then some (.onil, rest)
    else if c = ',' then
      (parseField fuel rest).bind fun p =>
        (parseObjTail fuel p.2).map fun q => (.ocons p.1.1 p.1.2 q.1, q.2)
    else none

end

/-- `JSON.parse` on a whole frame: parse one value consuming the entire
input. The fuel `2 * length + 2` dominates the recursion depth of any
parsable input. A `none` result models a thrown `SyntaxError`. -/
def jsonParse (s : List Char) : Option JVal :=
  match parseVal (2 * s.length + 2) s with
  | some (v, []) => some v
  | _ => none

/-! ### Fuel accounting for the round-trip proof -/

mutual

def sizeV : JVal → Nat
  | .jnull | .jbool _ | .jnum _ | .jstr _ => 1
  | .jarr .anil => 1
  | .jarr (.acons v tl) => sizeV v + sizeA tl + 1
  | .jobj .onil => 1
  | .jobj (.ocons _ v tl) => sizeV v + sizeO tl + 2

def sizeA : JArr → Nat
  | .anil => 1
  | .acons v tl => sizeV v + sizeA tl + 1

def sizeO : JObj → Nat
  | .onil => 1
  | .ocons _ v tl => sizeV v + sizeO tl + 2

end

/-! ## The command channel (src/socket.ts)

`Socket.write(command, data)` serializes the object with the fields
`command` and `data`, in that insertion order, and sends it as one text
frame.  The constructor's message handler parses each inbound text frame
with `JSON.parse`, reads the `command` and `data` properties off the result
(the TypeScript cast checks nothing), and dispatches one "data" event with
them. -/

def cmdKey : List Char := ['c', 'o', 'm', 'm', 'a', 'n', 'd']

def dataKey : List Char := ['d', 'a', 't', 'a']

/-- Outbound path of `Socket.write` with a payload present. -/
def socketWrite (command : List Char) (data : JVal) : List Char :=
  encVal (.jobj (.ocons cmdKey (.jstr command) (.ocons dataKey data .onil)))

/-- A JavaScript exception escaping the message handler. -/
inductive JsFault where
  | parseFault
  | nullAccess
deriving DecidableEq

/-- Field lookup on a parsed JSON object; with duplicate keys the last
assignment wins, as in `JSON.parse`. -/
def lookupField : JObj → List Char → Option JVal
  | .onil, _ => none
  | .ocons k v tl, key =>
    match lookupField tl key with
    | some w => some w
    | none => if k = key then some v else none

/-- JS property read `o[key]` on a parsed JSON value: `.ok none` is
`undefined` (missing field, or a receiver that is not an object); reading a
property of `null` throws a `TypeError`. -/
def propGet : JVal → List Char → Except JsFault (Option JVal)
  | .jnull, _ => .error .nullAccess
  | .jobj fields, key => .ok (lookupField fields key)
  | _, _ => .ok none

/-- The inbound path installed by the `Socket` constructor on each text
frame. `.error` means the exception propagates uncaught out of the handler
and no "data" event is dispatched; `.ok (c, d)` means exactly one "data"
event was dispatched carrying command `c` and payload `d` (either may be
`none`, i.e. `undefined`). -/
def onMessage (frame : List Char) : Except JsFault (Option JVal × Option JVal) :=
  match jsonParse frame with
  | none => .error .parseFault
  | some v =>
    (propGet v cmdKey).bind fun c =>
      (propGet v dataKey).bind fun d => .ok (c, d)

mutual

/-- Payloads built from nested arrays, numbers and strings only. -/
def isDataV : JVal → Bool
  | .jnum _ => true
  | .jstr _ => true
  | .jarr a => isDataA a
  | _ => false

def isDataA : JArr → Bool
  | .anil => true
  | .acons v tl => isDataV v && isDataA tl

end

/-! ## The event dispatcher (EventClass) -/

/-- A registered receiving function: a plain handler installed by `on`, or
the self-removing wrapper installed by `once` around a handler. Handlers
are identified by opaque tokens. -/
inductive HandlerFn where
  | plain : Nat → HandlerFn
  | onceWrap : Nat → HandlerFn
deriving DecidableEq

/-- One registry entry: the record with fields `fn` and `id` pushed by
`on`/`once`. `uid` models JavaScript object identity of the record, which
`array_remove` compares by; the API below allocates `uid`s from a counter,
so distinct registrations have distinct identities. -/
structure Entry where
  fn : HandlerFn
  dbg : List Char
  uid : Nat
deriving DecidableEq

/-- The dispatcher state: the insertion-ordered `events` map from event
name to its ordered handler sequence, plus the identity counter. -/
structure EvState where
  events : List (List Char × List Entry)
  nextUid : Nat
deriving DecidableEq

def mapHas (m : List (List Char × List Entry)) (k : List Char) : Bool :=
  m.any (fun p => decide (p.1 = k))

def mapGet (m : List (List Char × List Entry)) (k : List Char) : List Entry :=
  match m.find? (fun p => decide (p.1 = k)) with
  | some p => p.2
  | none => []

/-- `Map.set`: overwrite in place (position preserved) or append. -/
def mapSet (m : List (List Char × List Entry)) (k : List Char) (v : List Entry) :
    List (List Char × List Entry) :=
  if mapHas m k then m.map (fun p => if p.1 = k then (k, v) else p)
  else m ++ [(k, v)]

/-- `createEvent`: ensure the name exists with an empty handler sequence.
`on`/`once`/`emitEvent` perform the same check inline (with a console
warning, which is external I/O and not modeled). -/
def createEvent (s : EvState) (name : List Char) : EvState :=
  if mapHas s.events name then s else { s with events := mapSet s.events name [] }

/-- `on(event, fn, id?)`: push a plain entry onto the event's sequence.
(The source method is named `on`; that word is notation in Mathlib, hence
the longer Lean name.) -/
def onEvent (s : EvState) (name : List Char) (handler : Nat) (dbg : List Char) : EvState :=
  let s1 := createEvent s name
  { events := mapSet s1.events name
      (mapGet s1.events name ++ [⟨.plain handler, dbg, s1.nextUid⟩]),
    nextUid := s1.nextUid + 1 }

/-- `once(event, fn, id?)`: push the self-removing wrapper entry. -/
def once (s : EvState) (name : List Char) (handler : Nat) (dbg : List Char) : EvState :=
  let s1 := createEvent s name
  { events := mapSet s1.events name
      (mapGet s1.events name ++ [⟨.onceWrap handler, dbg, s1.nextUid⟩]),
    nextUid := s1.nextUid + 1 }

/-- Modelled from the spec: `array_remove` from util.ts, which is not under
src/ — identity-based removal of the first occurrence from the ordered
sequence (`indexOf` + `splice`), shifting later elements down one index. -/
def arrayRemove (l : List Entry) (uid : Nat) : List Entry :=
  match l with
  | [] => []
  | e :: tl => if e.uid = uid then tl else e :: arrayRemove tl uid

/-- The effect of calling one entry on the live array: a plain handler
leaves it alone; a `once` wrapper calls the handler and then splices itself
out. -/
def invokeEntry (e : Entry) (arr : List Entry) : List Entry :=
  match e.fn with
  | .plain _ => arr
  | .onceWrap _ => arrayRemove arr e.uid

/-- `Array.prototype.forEach` over the live handler array, as `emitEvent`
runs it: the iteration count is the length captured before the first call;
index `k` is visited only if still present in the (possibly spliced) array
when its turn comes. Returns the final array and the entries invoked, in
order, each paired with the emit arguments. -/
def emitSteps {α : Type} (args : α) : Nat → Nat → List Entry → List Entry × List (Entry × α)
  | 0, _, arr => (arr, [])
  | countdown + 1, k, arr =>
    match arr.get? k with
    | none => emitSteps args countdown (k + 1) arr
    | some e =>
      let arr2 := invokeEntry e arr
      let p := emitSteps args countdown (k + 1) arr2
      (p.1, (e, args) :: p.2)

/-- `emitEvent(event, ...args)`: auto-declare if needed, then `forEach` the
handler array. Returns the new state and the dispatched invocations. -/
def emitEvent {α : Type} (s : EvState) (name : List Char) (args : α) :
    EvState × List (Entry × α) :=
  let s1 := createEvent s name
  let arr := mapGet s1.events name
  let p := emitSteps args arr.length 0 arr
  ({ s1 with events := mapSet s1.events name p.1 }, p.2)

/-! ## The draw server (src/unnamed/part_000) -/

/-- A canvas point. Coordinates are rationals so the handler's pixel
arithmetic `size / 2` is exact. Modelled from the spec: point.ts is not
under src/; `Point.fromArray` reads a two-element array, `minus` subtracts
componentwise, and `new Point(v)` is the diagonal point. -/
structure Pt where
  x : Rat
  y : Rat
deriving DecidableEq

/-- `Point.fromArray` on a payload field; inputs that are not a two-number
array denote the junk point (the drawing claims never evaluate these). -/
def ptFromArray : Option JVal → Pt
  | some (.jarr (.acons (.jnum a) (.acons (.jnum b) .anil))) => ⟨(a : Rat), (b : Rat)⟩
  | _ => ⟨0, 0⟩

def jnumVal : Option JVal → Rat
  | some (.jnum n) => (n : Rat)
  | _ => 0

def jstrVal : Option JVal → List Char
  | some (.jstr s) => s
  | _ => []

/-- Reading a field off the handler's `_data` argument (`undefined` reads
and reads that would throw both denote the absent field; the drawing
claims only quantify over payloads where the read succeeds). -/
def jget (d : Option JVal) (key : List Char) : Option JVal :=
  match d with
  | some v =>
    match propGet v key with
    | .ok r => r
    | .error _ => none
  | none => none

/-- DrawSurface mutations. Modelled from the spec: canvas.ts is not under
src/; the shared canvas is represented by the exact sequence of mutations
applied to it since startup (after the initial white fill), and a snapshot
captures that state synchronously at the instant `createBlob` is invoked
(spec section 5: snapshot capture is synchronous with respect to canvas
state). -/
inductive CanvasOp where
  | drawLine : Pt → Pt → List Char → Rat → CanvasOp
  | fillCircleInSquare : Pt → Rat → List Char → CanvasOp
  | fill : List Char → CanvasOp
deriving DecidableEq

/-- One message sent to a session: a JSON command frame via `write`, or
the raw binary snapshot frame via `writeArrayBuffer`. -/
inductive WireMsg where
  | text : List Char → Option JVal → WireMsg
  | binary : List CanvasOp → WireMsg
deriving DecidableEq

/-- Server state: the session registry `sockets` (in registration order,
duplicates possible), the canvas, the log of messages written to sessions
in send order, and the snapshots persisted to durable storage. -/
structure ServerState where
  sockets : List Nat
  canvas : List CanvasOp
  sent : List (Nat × WireMsg)
  saved : List (List CanvasOp)
deriving DecidableEq

/-- The fixed canvas dimensions `canvas.size.toArray()`. -/
def canvasSizeArr : JVal := .jarr (.acons (.jnum 1920) (.acons (.jnum 1080) .anil))

/-- The private `join` reply payload carrying the canvas dimensions. -/
def joinReply : JVal := .jobj (.ocons ['s', 'i', 'z', 'e'] canvasSizeArr .onil)

/-- `broadcast(command, data, exclude?)`: write the frame to every socket
in the registry, in registration order, skipping only `exclude` (identity
comparison; `none` models the omitted argument). -/
def broadcast (command : List Char) (data : Option JVal) (exclude : Option Nat)
    (s : ServerState) : ServerState :=
  let recipients := s.sockets.filter (fun sid => decide (some sid ≠ exclude))
  { s with sent := s.sent ++ recipients.map (fun sid => (sid, WireMsg.text command data)) }

/-- `saveCanvas(buffer)`: persist one snapshot to durable storage. -/
def saveCanvas (snap : List CanvasOp) (s : ServerState) : ServerState :=
  { s with saved := s.saved ++ [snap] }

def joinCmd : List Char := ['j', 'o', 'i', 'n']

def lineCmd : List Char := ['l', 'i', 'n', 'e']

def dotCmd : List Char := ['d', 'o', 't']

def eraseCmd : List Char := ['e', 'r', 'a', 's', 'e']

def clearCmd : List Char := ['c', 'l', 'e', 'a', 'r']

def whiteColor : List Char := ['w', 'h', 'i', 't', 'e']

def fromKey : List Char := ['f', 'r', 'o', 'm']

def toKey : List Char := ['t', 'o']

def colorKey : List Char := ['c', 'o', 'l', 'o', 'r']

def sizeKey : List Char := ['s', 'i', 'z', 'e']

def posKey : List Char := ['p', 'o', 's']

/-- `handleData(command, _data, socket)`: the protocol switch.

* `join`: push the socket onto the registry, reply privately with the
  canvas dimensions, capture a snapshot, send it privately as one binary
  frame, and persist that same snapshot. No broadcast.
* `line`/`dot`/`erase`: apply the mutation to the canvas, then broadcast
  the command with the original payload. The source passes no `exclude`
  argument to `broadcast`.
* `clear`: persist a snapshot of the canvas as it is now, reset the canvas
  to white, then broadcast with the original payload (again no `exclude`).
* anything else: fall through with no effect. -/
def handleData (command : List Char) (_data : Option JVal) (socket : Nat)
    (s : ServerState) : ServerState :=
  if command = joinCmd then
    let s1 := { s with sockets := s.sockets ++ [socket] }
    let s2 := { s1 with sent := s1.sent ++ [(socket, WireMsg.text joinCmd (some joinReply))] }
    let snap := s2.canvas
    let s3 := { s2 with sent := s2.sent ++ [(socket, WireMsg.binary snap)] }
    saveCanvas snap s3
  else if command = lineCmd then
    let s1 := { s with canvas := s.canvas ++
      [CanvasOp.drawLine (ptFromArray (jget _data fromKey)) (ptFromArray (jget _data toKey))
        (jstrVal (jget _data colorKey)) (jnumVal (jget _data sizeKey))] }
    broadcast command _data none s1
  else if command = dotCmd then
    let pos := ptFromArray (jget _data posKey)
    let size := jnumVal (jget _data sizeKey)
    let s1 := { s with canvas := s.canvas ++
      [CanvasOp.fillCircleInSquare ⟨pos.x - size / 2, pos.y - size / 2⟩ size
        (jstrVal (jget _data colorKey))] }
    broadcast command _data none s1
  else if command = eraseCmd then
    let s1 := { s with canvas := s.canvas ++
      [CanvasOp.drawLine (ptFromArray (jget _data fromKey)) (ptFromArray (jget _data toKey))
        whiteColor (jnumVal (jget _data sizeKey))] }
    broadcast command _data none s1
  else if command = clearCmd then
    let snap := s.canvas
    let s1 := saveCanvas snap s
    let s2 := { s1 with canvas := s1.canvas ++ [CanvasOp.fill whiteColor] }
    broadcast command _data none s2
  else s

/-- The per-destination deliveries of one broadcast when the transport
write to some destinations fails. A failed `ws` `send` is reported
asynchronously (callback or error event), never thrown into the loop, so
iteration continues past a failing destination (spec sections 4.3 and 7:
best-effort, fire-and-forget per destination); the failing destination
simply receives nothing. -/
def broadcastDeliveries (failing : Nat → Bool) (command : List Char)
    (data : Option JVal) (exclude : Option Nat) (sockets : List Nat) :
    List (Nat × WireMsg) :=
  (sockets.filter (fun sid => decide (some sid ≠ exclude))).filterMap
    (fun sid => if failing sid then none else some (sid, WireMsg.text command data))

theorem digitCh_toNat {n : Nat} (h : n < 10) : (digitCh n).toNat = 48 + n :=
  (by decide : ∀ m : Nat, m < 10 → (digitCh m).toNat = 48 + m) n h

theorem isDigitCh_digitCh (n : Nat) : isDigitCh (digitCh n) = true := by
  by_cases h : n < 10
  · exact (by decide : ∀ m : Nat, m < 10 → isDigitCh (digitCh m) = true) n h
  · obtain ⟨m, rfl⟩ : ∃ m, n = m + 9 := ⟨n - 9, by omega⟩
    rfl

theorem hexNum_hexCh {n : Nat} (h : n < 16) : hexNum (hexCh n) = some n :=
  (by decide : ∀ m : Nat, m < 16 → hexNum (hexCh m) = some m) n h

theorem isDigitCh_toNat {c : Char} (h : isDigitCh c = true) :
    48 ≤ c.toNat ∧ c.toNat ≤ 57 := by
  simpa [isDigitCh] using h

theorem ne_of_toNat_ne {c d : Char} (h : c.toNat ≠ d.toNat) : c ≠ d :=
  fun e => h (congrArg Char.toNat e)

theorem digit_ne_quote {c : Char} (h : isDigitCh c = true) : c ≠ '"' := by
  intro e; subst e; exact absurd h (by decide)

theorem digit_ne_backslash {c : Char} (h : isDigitCh c = true) : c ≠ '\\' := by
  intro e; subst e; exact absurd h (by decide)

theorem digit_ne_minus {c : Char} (h : isDigitCh c = true) : c ≠ '-' := by
  intro e; subst e; exact absurd h (by decide)

theorem natDigits_digits (n : Nat) : ∀ c ∈ natDigits n, isDigitCh c = true := by
  induction n using Nat.strong_induction_on with
  | _ n ih =>
    intro c hc
    rw [natDigits] at hc
    by_cases h : n < 10
    · rw [dif_pos h] at hc
      simp only [List.mem_singleton] at hc
      exact hc ▸ isDigitCh_digitCh n
    · rw [dif_neg h] at hc
      rcases List.mem_append.mp hc with h1 | h2
      · exact ih (n / 10) (Nat.div_lt_self (by omega) (by omega)) c h1
      · simp only [List.mem_singleton] at h2
        exact h2 ▸ isDigitCh_digitCh (n % 10)

theorem natDigits_ne_nil (n : Nat) : natDigits n ≠ [] := by
  rw [natDigits]
  by_cases h : n < 10
  · simp [h]
  · simp [h]

theorem digitSpan_stop {rest : List Char} (h : digitLed rest = false) :
    digitSpan rest = ([], rest) := by
  match rest with
  | [] => rfl
  | c :: tl =>
    simp only [digitLed] at h
    simp [digitSpan, h]

theorem digitSpan_run {d : List Char} (hd : ∀ c ∈ d, isDigitCh c = true) :
    ∀ {rest : List Char}, digitLed rest = false →
      digitSpan (d ++ rest) = (d, rest) := by
  induction d with
  | nil => intro rest hr; simpa using digitSpan_stop hr
  | cons c tl ih =>
    intro rest hr
    have hc : isDigitCh c = true := hd c (by simp)
    have htl := ih (fun x hx => hd x (by simp [hx])) hr
    simp [digitSpan, hc, htl]

theorem digitsVal_snoc (l : List Char) (c : Char) :
    digitsVal (l ++ [c]) = 10 * digitsVal l + (c.toNat - 48) := by
  simp [digitsVal, List.foldl_append]
  omega

theorem digitsVal_natDigits (n : Nat) : digitsVal (natDigits n) = n := by
  induction n using Nat.strong_induction_on with
  | _ n ih =>
    rw [natDigits]
    by_cases h : n < 10
    · simp only [dif_pos h]
      simp [digitsVal, digitCh_toNat h]
    · simp only [dif_neg h]
      rw [digitsVal_snoc, ih (n / 10) (Nat.div_lt_self (by omega) (by omega)),
        digitCh_toNat (Nat.mod_lt _ (by omega))]
      omega

theorem natDigits_head (n : Nat) :
    ∃ c t, natDigits n = c :: t ∧ isDigitCh c = true := by
  match h : natDigits n with
  | [] => exact absurd h (natDigits_ne_nil n)
  | c :: t =>
    exact ⟨c, t, rfl, natDigits_digits n c (h ▸ List.mem_cons_self ..)⟩

theorem readInt_intChars (i : Int) {rest : List Char} (hr : digitLed rest = false) :
    readInt (intChars i ++ rest) = some (i, rest) := by
  by_cases hi : i < 0
  · have : intChars i ++ rest = '-' :: (natDigits i.natAbs ++ rest) := by
      simp [intChars, hi]
    rw [this]
    simp only [readInt, if_pos rfl]
    rw [digitSpan_run (natDigits_digits _) hr]
    rw [if_neg (natDigits_ne_nil _), digitsVal_natDigits]
    have : -((i.natAbs : Nat) : Int) = i := by omega
    rw [this]
    simp
  · obtain ⟨c, t, hct, hc⟩ := natDigits_head i.toNat
    have : intChars i ++ rest = c :: (t ++ rest) := by
      simp [intChars, hi, hct]
    rw [this]
    simp only [readInt, if_neg (digit_ne_minus hc)]
    have : digitSpan (c :: (t ++ rest)) = (c :: t, rest) := by
      have := digitSpan_run (d := c :: t) (hct ▸ natDigits_digits i.toNat) hr
      simpa using this
    simp only [this]
    have hv : digitsVal (c :: t) = i.toNat := hct ▸ digitsVal_natDigits i.toNat
    have hne : c :: t ≠ [] := by simp
    rw [if_neg hne, hv]
    have : ((i.toNat : Nat) : Int) = i := by omega
    rw [this]

/-- Reading one escaped character undoes `escapeCh`. -/
theorem readStr_escapeCh (c : Char) (l : List Char) :
    readStr (escapeCh c ++ l) = (readStr l).map (fun p => (c :: p.1, p.2)) := by
  by_cases h1 : c = '"'
  · subst h1; rw [show escapeCh '"' ++ l = '\\' :: '"' :: l from rfl, readStr.eq_def]
    simp [namedEscape]
  by_cases h2 : c = '\\'
  · subst h2; rw [show escapeCh '\\' ++ l = '\\' :: '\\' :: l from rfl, readStr.eq_def]
    simp [namedEscape]
  by_cases h3 : c = '\x08'
  · subst h3; rw [show escapeCh '\x08' ++ l = '\\' :: 'b' :: l from rfl, readStr.eq_def]
    simp [namedEscape]
  by_cases h4 : c = '\x09'
  · subst h4; rw [show escapeCh '\x09' ++ l = '\\' :: 't' :: l from rfl, readStr.eq_def]
    simp [namedEscape]
  by_cases h5 : c = '\x0a'
  · subst h5; rw [show escapeCh '\x0a' ++ l = '\\' :: 'n' :: l from rfl, readStr.eq_def]
    simp [namedEscape]
  by_cases h6 : c = '\x0c'
  · subst h6; rw [show escapeCh '\x0c' ++ l = '\\' :: 'f' :: l from rfl, readStr.eq_def]
    simp [namedEscape]
  by_cases h7 : c = '\x0d'
  · subst h7; rw [show escapeCh '\x0d' ++ l = '\\' :: 'r' :: l from rfl, readStr.eq_def]
    simp [namedEscape]
  by_cases hlt : c.toNat < 32
  · have hesc : escapeCh c
        = ['\\', 'u', '0', '0', hexCh (c.toNat / 16), hexCh (c.toNat % 16)] := by
      simp [escapeCh, h1, h2, h3, h4, h5, h6, h7, hlt]
    have ha : hexNum (hexCh (c.toNat / 16)) = some (c.toNat / 16) :=
      hexNum_hexCh (by omega)
    have hb : hexNum (hexCh (c.toNat % 16)) = some (c.toNat % 16) :=
      hexNum_hexCh (Nat.mod_lt _ (by omega))
    have h0 : hexNum '0' = some 0 := rfl
    have harith : c.toNat / 16 * 16 + c.toNat % 16 = c.toNat := by omega
    rw [hesc, List.cons_append, readStr.eq_def]
    simp only [List.cons_append, List.nil_append]
    simp [ha, hb, h0]
    simp only [harith, Char.ofNat_toNat]
  · have hesc : escapeCh c = [c] := by
      simp [escapeCh, h1, h2, h3, h4, h5, h6, h7, hlt]
    rw [hesc, List.cons_append, List.nil_append, readStr.eq_def]
    simp [h1, h2, hlt]

/-- The string-body round-trip: reading back an escaped string recovers it
and stops exactly at the closing quote. -/
theorem readStr_escapeChars (s : List Char) :
    ∀ rest, readStr (escapeChars s ++ '"' :: rest) = some (s, rest) := by
  induction s with
  | nil =>
    intro rest
    rw [show escapeChars [] ++ '"' :: rest = '"' :: rest from rfl, readStr.eq_def]
    simp
  | cons c tl ih =>
    intro rest
    rw [escapeChars, List.append_assoc, readStr_escapeCh, ih]
    rfl

theorem sizeV_pos (v : JVal) : 1 ≤ sizeV v := by
  match v with
  | .jnull | .jbool _ | .jnum _ | .jstr _ => simp [sizeV]
  | .jarr .anil => simp [sizeV]
  | .jarr (.acons v tl) => simp [sizeV]
  | .jobj .onil => simp [sizeV]
  | .jobj (.ocons k v tl) => simp [sizeV]

theorem sizeA_pos (a : JArr) : 1 ≤ sizeA a := by
  match a with
  | .anil => simp [sizeA]
  | .acons v tl => simp [sizeA]

theorem sizeO_pos (o : JObj) : 1 ≤ sizeO o := by
  match o with
  | .onil => simp [sizeO]
  | .ocons k v tl => simp [sizeO]

/-- Every serialized value begins with a character that closes nothing:
in particular not `]`, so the array-element branch of the parser is taken. -/
theorem encVal_head (v : JVal) :
    ∃ c t, encVal v = c :: t ∧ c ≠ ']' ∧ c ≠ '}' ∧ c ≠ ',' := by
  match v with
  | .jnull =>
    exact ⟨'n', ['u', 'l', 'l'], by simp [encVal], by decide, by decide, by decide⟩
  | .jbool true =>
    exact ⟨'t', ['r', 'u', 'e'], by simp [encVal], by decide, by decide, by decide⟩
  | .jbool false =>
    exact ⟨'f', ['a', 'l', 's', 'e'], by simp [encVal], by decide, by decide, by decide⟩
  | .jstr s =>
    exact ⟨'"', escapeChars s ++ ['"'], by simp [encVal], by decide, by decide, by decide⟩
  | .jarr items =>
    exact ⟨'[', encArr items ++ [']'], by simp [encVal], by decide, by decide, by decide⟩
  | .jobj fields =>
    exact ⟨'{', encObj fields ++ ['}'], by simp [encVal], by decide, by decide, by decide⟩
  | .jnum i =>
    by_cases hi : i < 0
    · refine ⟨'-', natDigits i.natAbs, ?_, by decide, by decide, by decide⟩
      simp [encVal, intChars, hi]
    · obtain ⟨c, t, hct, hc⟩ := natDigits_head i.toNat
      refine ⟨c, t, ?_, ?_, ?_, ?_⟩
      · simp [encVal, intChars, hi, hct]
      · intro e; subst e; exact absurd hc (by decide)
      · intro e; subst e; exact absurd hc (by decide)
      · intro e; subst e; exact absurd hc (by decide)

theorem digitLed_encArrTail (tl : JArr) (rest : List Char) :
    digitLed (encArrTail tl ++ ']' :: rest) = false := by
  match tl with
  | .anil => simp only [encArrTail, List.nil_append, digitLed]; decide
  | .acons v tl => simp only [encArrTail, List.cons_append, digitLed]; decide

theorem digitLed_encObjTail (tl : JObj) (rest : List Char) :
    digitLed (encObjTail tl ++ '}' :: rest) = false := by
  match tl with
  | .onil => simp only [encObjTail, List.nil_append, digitLed]; decide
  | .ocons k v tl => simp only [encObjTail, List.cons_append, digitLed]; decide

theorem digit_ne {c d : Char} (h : isDigitCh c = true)
    (hd : d.toNat < 48 ∨ 57 < d.toNat) : c ≠ d := by
  intro e
  subst e
  have := isDigitCh_toNat h
  omega

theorem intChars_head (i : Int) :
    ∃ c t, intChars i = c :: t ∧ (c = '-' ∨ isDigitCh c = true) := by
  by_cases hi : i < 0
  · exact ⟨'-', natDigits i.natAbs, by simp [intChars, hi], Or.inl rfl⟩
  · obtain ⟨c, t, hct, hc⟩ := natDigits_head i.toNat
    exact ⟨c, t, by simp [intChars, hi, hct], Or.inr hc⟩

/-- A serialized number at the front of the input parses back to itself
whenever the remainder cannot extend the numeral. -/
theorem parseVal_num (i : Int) (f : Nat) (rest : List Char)
    (hr : digitLed rest = false) :
    parseVal (f + 1) (intChars i ++ rest) = some (.jnum i, rest) := by
  obtain ⟨c, t, hct, hc⟩ := intChars_head i
  have hno : ¬ c = '"' ∧ ¬ c = '[' ∧ ¬ c = '{' ∧ ¬ c = 'n' ∧ ¬ c = 't' ∧ ¬ c = 'f' := by
    rcases hc with hm | hd
    · subst hm; refine ⟨by decide, by decide, by decide, by decide, by decide, by decide⟩
    · exact ⟨digit_ne hd (by decide), digit_ne hd (by decide), digit_ne hd (by decide),
        digit_ne hd (by decide), digit_ne hd (by decide), digit_ne hd (by decide)⟩
  obtain ⟨h1, h2, h3, h4, h5, h6⟩ := hno
  have harg : intChars i ++ rest = c :: (t ++ rest) := by rw [hct]; rfl
  rw [harg, parseVal.eq_def]
  simp only [h1, h2, h3, h4, h5, h6, if_neg, if_false, hc, if_true, if_pos, ite_false,
    ite_true, eq_self_iff_true, or_true, true_or]
  rw [show c :: (t ++ rest) = intChars i ++ rest from harg.symm,
    readInt_intChars i hr]
  rfl

/-! ### The round-trip: parsing a serialized value recovers it exactly.
Mutual induction over the value grammar; fuel is accounted by `sizeV`. -/

mutual

theorem parseVal_encVal (v : JVal) (fuel : Nat) (rest : List Char)
    (hf : sizeV v ≤ fuel) (hr : digitLed rest = false) :
    parseVal fuel (encVal v ++ rest) = some (v, rest) := by
  match v, fuel with
  | .jnull, fuel =>
    have h1 : 1 ≤ fuel := le_trans (by simp [sizeV]) hf
    obtain ⟨f, rfl⟩ : ∃ f, fuel = f + 1 := ⟨fuel - 1, by omega⟩
    rw [show encVal .jnull ++ rest = 'n' :: 'u' :: 'l' :: 'l' :: rest from by
      simp [encVal], parseVal.eq_def]
    simp
  | .jbool true, fuel =>
    have h1 : 1 ≤ fuel := le_trans (by simp [sizeV]) hf
    obtain ⟨f, rfl⟩ : ∃ f, fuel = f + 1 := ⟨fuel - 1, by omega⟩
    rw [show encVal (.jbool true) ++ rest = 't' :: 'r' :: 'u' :: 'e' :: rest from by
      simp [encVal], parseVal.eq_def]
    simp
  | .jbool false, fuel =>
    have h1 : 1 ≤ fuel := le_trans (by simp [sizeV]) hf
    obtain ⟨f, rfl⟩ : ∃ f, fuel = f + 1 := ⟨fuel - 1, by omega⟩
    rw [show encVal (.jbool false) ++ rest = 'f' :: 'a' :: 'l' :: 's' :: 'e' :: rest from by
      simp [encVal], parseVal.eq_def]
    simp
  | .jnum i, fuel =>
    have h1 : 1 ≤ fuel := le_trans (by simp [sizeV]) hf
    obtain ⟨f, rfl⟩ : ∃ f, fuel = f + 1 := ⟨fuel - 1, by omega⟩
    rw [show encVal (.jnum i) ++ rest = intChars i ++ rest from by simp [encVal]]
    exact parseVal_num i f rest hr
  | .jstr s, fuel =>
    have h1 : 1 ≤ fuel := le_trans (by simp [sizeV]) hf
    obtain ⟨f, rfl⟩ : ∃ f, fuel = f + 1 := ⟨fuel - 1, by omega⟩
    rw [show encVal (.jstr s) ++ rest = '"' :: (escapeChars s ++ '"' :: rest) from by
      simp [encVal], parseVal.eq_def]
    simp [readStr_escapeChars]
  | .jarr .anil, fuel =>
    have h1 : 1 ≤ fuel := le_trans (by simp [sizeV]) hf
    obtain ⟨f, rfl⟩ : ∃ f, fuel = f + 1 := ⟨fuel - 1, by omega⟩
    rw [show encVal (.jarr .anil) ++ rest = '[' :: ']' :: rest from by
      simp [encVal, encArr], parseVal.eq_def]
    simp
  | .jarr (.acons v tl), fuel =>
    have hsz : sizeV v + sizeA tl + 1 ≤ fuel := by
      have : sizeV (.jarr (.acons v tl)) = sizeV v + sizeA tl + 1 := by simp [sizeV]
      omega
    have hv1 := sizeV_pos v
    have ha1 := sizeA_pos tl
    obtain ⟨f, rfl⟩ : ∃ f, fuel = f + 1 := ⟨fuel - 1, by omega⟩
    obtain ⟨d, t, hd, hdne, _, _⟩ := encVal_head v
    have harg : encVal (.jarr (.acons v tl)) ++ rest
        = '[' :: (d :: (t ++ (encArrTail tl ++ ']' :: rest))) := by
      simp [encVal, encArr, hd]
    rw [harg, parseVal.eq_def]
    simp only [List.cons_append]
    have hstep : parseVal f (d :: (t ++ (encArrTail tl ++ ']' :: rest)))
        = some (v, encArrTail tl ++ ']' :: rest) := by
      rw [show d :: (t ++ (encArrTail tl ++ ']' :: rest))
          = encVal v ++ (encArrTail tl ++ ']' :: rest) from by simp [hd]]
      exact parseVal_encVal v f _ (by omega) (digitLed_encArrTail tl rest)
    simp [hdne, hstep, parseArrTail_encArrTail tl f rest (by omega) hr]
  | .jobj .onil, fuel =>
    have h1 : 1 ≤ fuel := le_trans (by simp [sizeV]) hf
    obtain ⟨f, rfl⟩ : ∃ f, fuel = f + 1 := ⟨fuel - 1, by omega⟩
    rw [show encVal (.jobj .onil) ++ rest = '{' :: '}' :: rest from by
      simp [encVal, encObj], parseVal.eq_def]
    simp
  | .jobj (.ocons k v tl), fuel =>
    have hsz : sizeV v + sizeO tl + 2 ≤ fuel := by
      have : sizeV (.jobj (.ocons k v tl)) = sizeV v + sizeO tl + 2 := by simp [sizeV]
      omega
    have hv1 := sizeV_pos v
    have ho1 := sizeO_pos tl
    obtain ⟨f, rfl⟩ : ∃ f, fuel = f + 1 := ⟨fuel - 1, by omega⟩
    have harg : encVal (.jobj (.ocons k v tl)) ++ rest
        = '{' :: ('"' :: (escapeChars k ++ '"' :: ':' :: (encVal v
            ++ (encObjTail tl ++ '}' :: rest)))) := by
      simp [encVal, encObj, encField]
    rw [harg, parseVal.eq_def]
    simp only [List.cons_append]
    have hfld : parseField f ('"' :: (escapeChars k ++ '"' :: ':' :: (encVal v
          ++ (encObjTail tl ++ '}' :: rest))))
        = some ((k, v), encObjTail tl ++ '}' :: rest) := by
      rw [show ('"' :: (escapeChars k ++ '"' :: ':' :: (encVal v
            ++ (encObjTail tl ++ '}' :: rest))) : List Char)
          = encField k v ++ (encObjTail tl ++ '}' :: rest) from by
        simp [encField]]
      exact parseField_encField k v f _ (by omega) (digitLed_encObjTail tl rest)
    simp [hfld, parseObjTail_encObjTail tl f rest (by omega) hr]

theorem parseField_encField (k : List Char) (v : JVal) (fuel : Nat) (after : List Char)
    (hf : sizeV v < fuel) (ha : digitLed after = false) :
    parseField fuel (encField k v ++ after) = some ((k, v), after) := by
  obtain ⟨g, rfl⟩ : ∃ g, fuel = g + 1 := ⟨fuel - 1, by omega⟩
  have harg : encField k v ++ after
      = '"' :: (escapeChars k ++ '"' :: (':' :: (encVal v ++ after))) := by
    simp [encField]
  rw [harg, parseField.eq_def]
  simp [readStr_escapeChars, parseVal_encVal v g after (by omega) ha]

theorem parseArrTail_encArrTail (tl : JArr) (fuel : Nat) (rest : List Char)
    (hf : sizeA tl ≤ fuel) (hr : digitLed rest = false) :
    parseArrTail fuel (encArrTail tl ++ ']' :: rest) = some (tl, rest) := by
  match tl, fuel with
  | .anil, fuel =>
    have h1 : 1 ≤ fuel := le_trans (by simp [sizeA]) hf
    obtain ⟨f, rfl⟩ : ∃ f, fuel = f + 1 := ⟨fuel - 1, by omega⟩
    rw [show encArrTail .anil ++ ']' :: rest = ']' :: rest from by
      simp [encArrTail], parseArrTail.eq_def]
    simp
  | .acons v tl, fuel =>
    have hsz : sizeV v + sizeA tl + 1 ≤ fuel := by
      have : sizeA (.acons v tl) = sizeV v + sizeA tl + 1 := by simp [sizeA]
      omega
    have hv1 := sizeV_pos v
    have ha1 := sizeA_pos tl
    obtain ⟨f, rfl⟩ : ∃ f, fuel = f + 1 := ⟨fuel - 1, by omega⟩
    have harg : encArrTail (.acons v tl) ++ ']' :: rest
        = ',' :: (encVal v ++ (encArrTail tl ++ ']' :: rest)) := by
      simp [encArrTail]
    rw [harg, parseArrTail.eq_def]
    simp [parseVal_encVal v f _ (by omega) (digitLed_encArrTail tl rest),
      parseArrTail_encArrTail tl f rest (by omega) hr]

theorem parseObjTail_encObjTail (tl : JObj) (fuel : Nat) (rest : List Char)
    (hf : sizeO tl ≤ fuel) (hr : digitLed rest = false) :
    parseObjTail fuel (encObjTail tl ++ '}' :: rest) = some (tl, rest) := by
  match tl, fuel with
  | .onil, fuel =>
    have h1 : 1 ≤ fuel := le_trans (by simp [sizeO]) hf
    obtain ⟨f, rfl⟩ : ∃ f, fuel = f + 1 := ⟨fuel - 1, by omega⟩
    rw [show encObjTail .onil ++ '}' :: rest = '}' :: rest from by
      simp [encObjTail], parseObjTail.eq_def]
    simp
  | .ocons k v tl, fuel =>
    have hsz : sizeV v + sizeO tl + 2 ≤ fuel := by
      have : sizeO (.ocons k v tl) = sizeV v + sizeO tl + 2 := by simp [sizeO]
      omega
    have hv1 := sizeV_pos v
    have ho1 := sizeO_pos tl
    obtain ⟨f, rfl⟩ : ∃ f, fuel = f + 1 := ⟨fuel - 1, by omega⟩
    have harg : encObjTail (.ocons k v tl) ++ '}' :: rest
        = ',' :: (encField k v ++ (encObjTail tl ++ '}' :: rest)) := by
      simp [encObjTail]
    rw [harg, parseObjTail.eq_def]
    simp [parseField_encField k v f _ (by omega) (digitLed_encObjTail tl rest),
      parseObjTail_encObjTail tl f rest (by omega) hr]

end

/-! ### The fuel supplied by `jsonParse` dominates `sizeV`. -/

mutual

theorem sizeV_le (v : JVal) : sizeV v ≤ 2 * (encVal v).length + 1 := by
  match v with
  | .jnull => simp [sizeV]
  | .jbool true => simp [sizeV]
  | .jbool false => simp [sizeV]
  | .jnum i => simp [sizeV]
  | .jstr s => simp [sizeV]
  | .jarr .anil => simp [sizeV, encVal, encArr]
  | .jarr (.acons v tl) =>
    have h1 := sizeV_le v
    have h2 := sizeA_le tl
    simp only [sizeV, encVal, encArr, List.length_cons, List.length_append,
      List.length_singleton] at *
    omega
  | .jobj .onil => simp [sizeV, encVal, encObj]
  | .jobj (.ocons k v tl) =>
    have h1 := sizeV_le v
    have h2 := sizeO_le tl
    simp only [sizeV, encVal, encObj, encField, List.length_cons, List.length_append,
      List.length_singleton] at *
    omega

theorem sizeA_le (tl : JArr) : sizeA tl ≤ 2 * (encArrTail tl).length + 1 := by
  match tl with
  | .anil => simp [sizeA, encArrTail]
  | .acons v tl =>
    have h1 := sizeV_le v
    have h2 := sizeA_le tl
    simp only [sizeA, encArrTail, List.length_cons, List.length_append] at *
    omega

theorem sizeO_le (tl : JObj) : sizeO tl ≤ 2 * (encObjTail tl).length + 1 := by
  match tl with
  | .onil => simp [sizeO, encObjTail]
  | .ocons k v tl =>
    have h1 := sizeV_le v
    have h2 := sizeO_le tl
    simp only [sizeO, encObjTail, encField, List.length_cons, List.length_append] at *
    omega

end

/-- The codec round-trip at the frame level: parsing a serialized value with
the fuel budget of `jsonParse` recovers the value exactly. -/
theorem jsonParse_encVal (v : JVal) : jsonParse (encVal v) = some v := by
  have h : parseVal (2 * (encVal v).length + 2) (encVal v ++ []) = some (v, []) :=
    parseVal_encVal v _ [] (by have := sizeV_le v; omega) rfl
  rw [List.append_nil] at h
  rw [jsonParse, h]

/-! ## Unfolding lemmas for the protocol handler -/

theorem broadcast_none (command : List Char) (data : Option JVal) (s : ServerState) :
    broadcast command data none s
      = { s with sent := s.sent ++ s.sockets.map (fun sid => (sid, WireMsg.text command data)) } := by
  have hf : s.sockets.filter (fun sid => decide (some sid ≠ (none : Option Nat)))
      = s.sockets := by
    apply List.filter_eq_self.mpr
    intro a _
    simp
  simp [broadcast, hf]

theorem handleData_join (s : ServerState) (d : Option JVal) (sock : Nat) :
    handleData joinCmd d sock s =
      { sockets := s.sockets ++ [sock],
        canvas := s.canvas,
        sent := s.sent ++ [(sock, WireMsg.text joinCmd (some joinReply)),
          (sock, WireMsg.binary s.canvas)],
        saved := s.saved ++ [s.canvas] } := by
  cases s
  simp [handleData, saveCanvas]

theorem handleData_line (s : ServerState) (d : Option JVal) (sock : Nat) :
    handleData lineCmd d sock s =
      { s with
        canvas := s.canvas ++ [CanvasOp.drawLine (ptFromArray (jget d fromKey))
          (ptFromArray (jget d toKey)) (jstrVal (jget d colorKey)) (jnumVal (jget d sizeKey))],
        sent := s.sent ++ s.sockets.map (fun sid => (sid, WireMsg.text lineCmd d)) } := by
  have h1 : lineCmd ≠ joinCmd := by decide
  cases s
  simp [handleData, h1, broadcast_none]

theorem handleData_dot (s : ServerState) (d : Option JVal) (sock : Nat) :
    handleData dotCmd d sock s =
      { s with
        canvas := s.canvas ++ [CanvasOp.fillCircleInSquare
          ⟨(ptFromArray (jget d posKey)).x - jnumVal (jget d sizeKey) / 2,
            (ptFromArray (jget d posKey)).y - jnumVal (jget d sizeKey) / 2⟩
          (jnumVal (jget d sizeKey)) (jstrVal (jget d colorKey))],
        sent := s.sent ++ s.sockets.map (fun sid => (sid, WireMsg.text dotCmd d)) } := by
  have h1 : dotCmd ≠ joinCmd := by decide
  have h2 : dotCmd ≠ lineCmd := by decide
  cases s
  simp [handleData, h1, h2, broadcast_none]

theorem handleData_erase (s : ServerState) (d : Option JVal) (sock : Nat) :
    handleData eraseCmd d sock s =
      { s with
        canvas := s.canvas ++ [CanvasOp.drawLine (ptFromArray (jget d fromKey))
          (ptFromArray (jget d toKey)) whiteColor (jnumVal (jget d sizeKey))],
        sent := s.sent ++ s.sockets.map (fun sid => (sid, WireMsg.text eraseCmd d)) } := by
  have h1 : eraseCmd ≠ joinCmd := by decide
  have h2 : eraseCmd ≠ lineCmd := by decide
  have h3 : eraseCmd ≠ dotCmd := by decide
  cases s
  simp [handleData, h1, h2, h3, broadcast_none]

theorem handleData_clear (s : ServerState) (d : Option JVal) (sock : Nat) :
    handleData clearCmd d sock s =
      { sockets := s.sockets,
        canvas := s.canvas ++ [CanvasOp.fill whiteColor],
        sent := s.sent ++ s.sockets.map (fun sid => (sid, WireMsg.text clearCmd d)),
        saved := s.saved ++ [s.canvas] } := by
  have h1 : clearCmd ≠ joinCmd := by decide
  have h2 : clearCmd ≠ lineCmd := by decide
  have h3 : clearCmd ≠ dotCmd := by decide
  have h4 : clearCmd ≠ eraseCmd := by decide
  cases s
  simp [handleData, h1, h2, h3, h4, saveCanvas, broadcast_none]

/-! ## Claim theorems for the protocol handler -/

/-- C1 counterexample: from the two-session registry `[0, 1]`, session 0
sends a well-formed `line` command, and the resulting broadcast delivers
that command back to session 0 itself — the originating session does
receive an echo, because `handleData` passes no `exclude` argument to
`broadcast`. This refutes the claim that the sender is excluded. -/
theorem c1_counterexample :
    (0, WireMsg.text lineCmd (some (.jobj (.ocons fromKey
        (.jarr (.acons (.jnum 100) (.acons (.jnum 100) .anil)))
      (.ocons toKey (.jarr (.acons (.jnum 200) (.acons (.jnum 150) .anil)))
      (.ocons colorKey (.jstr ['r', 'e', 'd'])
      (.ocons sizeKey (.jnum 3) .onil)))))))
    ∈ (handleData lineCmd (some (.jobj (.ocons fromKey
        (.jarr (.acons (.jnum 100) (.acons (.jnum 100) .anil)))
      (.ocons toKey (.jarr (.acons (.jnum 200) (.acons (.jnum 150) .anil)))
      (.ocons colorKey (.jstr ['r', 'e', 'd'])
      (.ocons sizeKey (.jnum 3) .onil)))))) 0
      { sockets := [0, 1], canvas := [], sent := [], saved := [] }).sent := by
  decide

/-- C1 (amended): for each drawing command `line`, `dot`, `erase`, `clear`
received from a session, the broadcast delivers the command, with its
payload unmodified, to every session in the registry *including* the
sender: the handler never supplies the `exclude` argument of `broadcast`,
so the originating session receives an echo of its own command. -/
theorem c1_broadcast_includes_sender (s : ServerState) (d : Option JVal) (sock : Nat) :
    (handleData lineCmd d sock s).sent
      = s.sent ++ s.sockets.map (fun sid => (sid, WireMsg.text lineCmd d))
    ∧ (handleData dotCmd d sock s).sent
      = s.sent ++ s.sockets.map (fun sid => (sid, WireMsg.text dotCmd d))
    ∧ (handleData eraseCmd d sock s).sent
      = s.sent ++ s.sockets.map (fun sid => (sid, WireMsg.text eraseCmd d))
    ∧ (handleData clearCmd d sock s).sent
      = s.sent ++ s.sockets.map (fun sid => (sid, WireMsg.text clearCmd d)) := by
  refine ⟨?_, ?_, ?_, ?_⟩
  · rw [handleData_line]
  · rw [handleData_dot]
  · rw [handleData_erase]
  · rw [handleData_clear]

/-- C2: a session that sends `join` is appended to the registry; the only
messages sent are to the joiner itself — first the private `join` reply
carrying the canvas dimensions, then exactly one binary snapshot frame; no
`join` is broadcast to anyone (in particular the joiner receives no `join`
echo beyond the private reply); and the very same snapshot is persisted to
durable storage. -/
theorem c2_join_effect (s : ServerState) (d : Option JVal) (sock : Nat) :
    handleData joinCmd d sock s =
      { sockets := s.sockets ++ [sock],
        canvas := s.canvas,
        sent := s.sent ++ [(sock, WireMsg.text joinCmd (some joinReply)),
          (sock, WireMsg.binary s.canvas)],
        saved := s.saved ++ [s.canvas] } :=
  handleData_join s d sock

/-- C4: during a broadcast over any registry, a transport write failure to
one destination does not block or abort delivery to the remaining
destinations: every non-failing, non-excluded session still receives the
command, whatever the set of failing destinations is. -/
theorem c4_delivery_isolated (failing : Nat → Bool) (command : List Char)
    (data : Option JVal) (exclude : Option Nat) (sockets : List Nat) (sid : Nat)
    (hmem : sid ∈ sockets) (hok : failing sid = false) (hex : some sid ≠ exclude) :
    (sid, WireMsg.text command data)
      ∈ broadcastDeliveries failing command data exclude sockets := by
  rw [broadcastDeliveries, List.mem_filterMap]
  refine ⟨sid, List.mem_filter.mpr ⟨hmem, by simpa using hex⟩, ?_⟩
  rw [hok]
  simp

/-- C4 witness: with registry `[0, 1, 2]`, the write to destination 1
failing, and no excluded sender, destination 2 still receives the frame. -/
theorem c4_witness :
    (2 ∈ [0, 1, 2] ∧ (fun n => decide (n = 1)) 2 = false
      ∧ some 2 ≠ (none : Option Nat))
    ∧ (2, WireMsg.text lineCmd none)
      ∈ broadcastDeliveries (fun n => decide (n = 1)) lineCmd none none [0, 1, 2] :=
  ⟨⟨by decide, by decide, by decide⟩,
    c4_delivery_isolated (fun n => decide (n = 1)) lineCmd none none [0, 1, 2] 2
      (by decide) (by decide) (by decide)⟩

/-- C5: processing `clear` appends exactly one snapshot to durable storage,
that snapshot is the canvas state from before the canvas is reset to the
background color, and the `clear` command is broadcast with its original
payload unmodified. -/
theorem c5_clear_effect (s : ServerState) (d : Option JVal) (sock : Nat) :
    handleData clearCmd d sock s =
      { sockets := s.sockets,
        canvas := s.canvas ++ [CanvasOp.fill whiteColor],
        sent := s.sent ++ s.sockets.map (fun sid => (sid, WireMsg.text clearCmd d)),
        saved := s.saved ++ [s.canvas] } :=
  handleData_clear s d sock

/-- C8: a well-formed envelope whose command is none of `join`, `line`,
`dot`, `erase`, `clear` falls through the switch: the canvas, the registry,
the send log and the persisted snapshots are all unchanged, and no error is
raised (the handler is a total function). -/
theorem c8_unknown_command (command : List Char) (d : Option JVal) (sock : Nat)
    (s : ServerState) (h1 : command ≠ joinCmd) (h2 : command ≠ lineCmd)
    (h3 : command ≠ dotCmd) (h4 : command ≠ eraseCmd) (h5 : command ≠ clearCmd) :
    handleData command d sock s = s := by
  simp [handleData, h1, h2, h3, h4, h5]

/-- C8 witness: the command `ping` is unrecognized and leaves a concrete
one-session state untouched. -/
theorem c8_witness :
    ((['p', 'i', 'n', 'g'] : List Char) ≠ joinCmd
      ∧ (['p', 'i', 'n', 'g'] : List Char) ≠ lineCmd
      ∧ (['p', 'i', 'n', 'g'] : List Char) ≠ dotCmd
      ∧ (['p', 'i', 'n', 'g'] : List Char) ≠ eraseCmd
      ∧ (['p', 'i', 'n', 'g'] : List Char) ≠ clearCmd)
    ∧ handleData ['p', 'i', 'n', 'g'] none 0
        { sockets := [0], canvas := [], sent := [], saved := [] }
      = { sockets := [0], canvas := [], sent := [], saved := [] } :=
  ⟨⟨by decide, by decide, by decide, by decide, by decide⟩,
    c8_unknown_command ['p', 'i', 'n', 'g'] none 0 _
      (by decide) (by decide) (by decide) (by decide) (by decide)⟩

theorem count_map_pair (l : List Nat) (sock : Nat) (m : WireMsg) :
    (l.map (fun sid => (sid, m))).count (sock, m) = l.count sock := by
  induction l with
  | nil => rfl
  | cons a tl ih =>
    by_cases h : a = sock
    · subst h; simp [List.count_cons, ih]
    · simp [List.count_cons, ih, h]

/-- C10: the registry admits duplicates — a second `join` from an
already-registered session appends it again with no membership check, and a
subsequent broadcast then delivers the command to that session once per
registry entry: its delivery count rises by exactly 2 over the base state's
count. -/
theorem c10_duplicate_join (s : ServerState) (sock other : Nat)
    (d1 d2 cd : Option JVal) :
    (handleData joinCmd d2 sock (handleData joinCmd d1 sock s)).sockets
      = s.sockets ++ [sock, sock]
    ∧ (handleData lineCmd cd other
        (handleData joinCmd d2 sock (handleData joinCmd d1 sock s))).sent
      = (handleData joinCmd d2 sock (handleData joinCmd d1 sock s)).sent
        ++ ((handleData joinCmd d2 sock (handleData joinCmd d1 sock s)).sockets.map
          (fun sid => (sid, WireMsg.text lineCmd cd)))
    ∧ ((handleData joinCmd d2 sock (handleData joinCmd d1 sock s)).sockets.map
        (fun sid => (sid, WireMsg.text lineCmd cd))).count (sock, WireMsg.text lineCmd cd)
      = s.sockets.count sock + 2 := by
  refine ⟨?_, ?_, ?_⟩
  · rw [handleData_join, handleData_join]
    simp
  · rw [handleData_line]
  · rw [handleData_join, handleData_join]
    simp only
    rw [count_map_pair]
    simp [List.count_append]

/-! ## Claim theorems for the channel codec and the dispatcher -/

/-- C9: serializing a command envelope through the channel's outbound write
and parsing it back through the inbound path yields the original
`(command, payload)` pair unchanged, for every command string and every
payload built from nested arrays, numbers and strings. -/
theorem c9_roundtrip (command : List Char) (payload : JVal)
    (_h : isDataV payload = true) :
    onMessage (socketWrite command payload)
      = .ok (some (.jstr command), some payload) := by
  rw [onMessage, socketWrite, jsonParse_encVal]
  rfl

/-- C9 witness: a `line` envelope whose payload nests a number and a string
inside an array round-trips exactly. -/
theorem c9_witness :
    isDataV (.jarr (.acons (.jnum 12) (.acons (.jstr ['h', 'i']) .anil))) = true
    ∧ onMessage (socketWrite lineCmd
        (.jarr (.acons (.jnum 12) (.acons (.jstr ['h', 'i']) .anil))))
      = .ok (some (.jstr lineCmd),
          some (.jarr (.acons (.jnum 12) (.acons (.jstr ['h', 'i']) .anil)))) :=
  ⟨by decide, c9_roundtrip lineCmd _ (by decide)⟩

/-- C7 counterexample: the frame consisting of an empty JSON object is
valid structured data that lacks a `command` field; the claim says such a
frame fails the parse and dispatches no "data" event, but the handler
parses it successfully and dispatches a "data" event whose command is
`undefined`. -/
theorem c7_counterexample : onMessage ['{', '}'] = .ok (none, none) := by
  rw [onMessage, show jsonParse ['{', '}'] = some (.jobj .onil) from by decide]
  rfl

/-- C7 (amended): an inbound text frame that is not valid structured data
fails the inbound parse, the failure propagates uncaught out of the message
handler, and no "data" event is dispatched for that frame. (A valid-JSON
frame that merely lacks a `command` field is instead dispatched with an
undefined command — see the counterexample.) -/
theorem c7_malformed_frame (frame : List Char) (h : jsonParse frame = none) :
    onMessage frame = .error .parseFault := by
  simp [onMessage, h]

/-- C7 witness: the frame `{` is not valid JSON; its parse failure
propagates and no event is dispatched. -/
theorem c7_witness :
    jsonParse ['{'] = none ∧ onMessage ['{'] = .error .parseFault :=
  ⟨by decide, c7_malformed_frame ['{'] (by decide)⟩

/-- C3 (code bug): with the handler sequence for event `e` being a one-shot
handler (token 10) followed by a plain handler (token 20), a single emit
invokes only the one-shot handler. The wrapper's in-place splice during the
live `forEach` shifts the plain handler down to the already-visited index,
so the plain handler is skipped even though it was registered at the start
of the emission and remains registered afterwards — against the claim (and
the dispatcher's own documentation of `on`) that every registered handler
is invoked. -/
theorem c3_once_skips_next_handler :
    ((emitEvent (onEvent (once ⟨[], 0⟩ ['e'] 10 []) ['e'] 20 []) ['e'] (0 : Nat)).2.map
        (fun q => q.1.fn) = [HandlerFn.onceWrap 10])
    ∧ (mapGet (onEvent (once ⟨[], 0⟩ ['e'] 10 []) ['e'] 20 []).events ['e']).map Entry.fn
      = [HandlerFn.onceWrap 10, HandlerFn.plain 20]
    ∧ (mapGet (emitEvent (onEvent (once ⟨[], 0⟩ ['e'] 10 []) ['e'] 20 [])
        ['e'] (0 : Nat)).1.events ['e']).map Entry.fn = [HandlerFn.plain 20] := by
  decide

/-- C6 (code bug): with two one-shot handlers (tokens 10 then 20) on event
`e`, the first emission invokes only handler 10 — handler 20 is shifted
down by the wrapper's splice and skipped — so handler 20 is still in the
dispatched set of the second emission and fires there, against the claim
that every one-shot handler fires on the first emission and is absent from
the second emission's dispatched set. -/
theorem c6_second_once_fires_on_second_emission :
    ((emitEvent (once (once ⟨[], 0⟩ ['e'] 10 []) ['e'] 20 []) ['e'] (0 : Nat)).2.map
        (fun q => q.1.fn) = [HandlerFn.onceWrap 10])
    ∧ (mapGet (emitEvent (once (once ⟨[], 0⟩ ['e'] 10 []) ['e'] 20 [])
        ['e'] (0 : Nat)).1.events ['e']).map Entry.fn = [HandlerFn.onceWrap 20]
    ∧ ((emitEvent (emitEvent (once (once ⟨[], 0⟩ ['e'] 10 []) ['e'] 20 [])
        ['e'] (0 : Nat)).1 ['e'] (0 : Nat)).2.map (fun q => q.1.fn)
      = [HandlerFn.onceWrap 20]) := by
  decide

end DrawTogether

